import Mathlib

/-!
# Verification of the ring-world position/selection engine

Shallow embedding, in Lean 4, of the core logic of the `ring-world`
TUI library:

* the easing function table `ease` (hooks/useAnimation);
* the circular step animator `useStepAnimation` (shortest-path delta,
  mid-flight wrap into `[0, total)`, settle behaviour);
* the ring navigation controller `useRingNav` (`move(delta)` with
  wrap/clamp policies);
* the visible window builder `visibleSlots` and the `selectedItem`
  lookup of `components/Ring.tsx`;
* the input dispatcher `useRingInput` (single/double/long press
  classification with timers), modelled as an explicit event-step
  machine over wall-clock timestamps.

JavaScript numbers are modelled by `ℚ` (exact decimal literals; the
source never relies on float rounding in the code under study), except
the elastic easing which uses `Math.sin` and is modelled over `ℝ`.
JavaScript's `%` on integers is truncated remainder, i.e. `Int.tmod`.
`Math.round` rounds half toward +∞, i.e. `⌊x + 1/2⌋`.
-/

namespace RingWorld

/-! ## JavaScript numeric primitives -/

/-- JavaScript `Math.round`: round half toward +∞ (`Math.round(-2.5) = -2`). -/
def jsRound (x : ℚ) : ℤ := ⌊x + 1/2⌋

/-- The double-mod wrap idiom `((i % N) + N) % N` used throughout the source
(`Ring.tsx` slot computation, `useRingNav` wrap policy), with JavaScript's
truncated `%` (`Int.tmod`). -/
def jsWrapIndex (i N : ℤ) : ℤ := ((i.tmod N) + N).tmod N

/-! ## Easing library (`hooks/useAnimation.ts`, `export const ease = {...}`) -/

namespace ease

def linear (t : ℚ) : ℚ := t

def inQuad (t : ℚ) : ℚ := t * t

def outQuad (t : ℚ) : ℚ := t * (2 - t)

def inOutQuad (t : ℚ) : ℚ := if t < 0.5 then 2 * t * t else -1 + (4 - 2 * t) * t

def inCubic (t : ℚ) : ℚ := t * t * t

/-- Source: `--t * t * t + 1`, i.e. `(t-1)^3 + 1`. -/
def outCubic (t : ℚ) : ℚ := (t - 1) * (t - 1) * (t - 1) + 1

def inOutCubic (t : ℚ) : ℚ :=
  if t < 0.5 then 4 * t * t * t else (t - 1) * (2 * t - 2) * (2 * t - 2) + 1

/-- Source: `const p = 0.3; 2 ** (-10 * t) * Math.sin(((t - p / 4) * (2 * Math.PI)) / p) + 1`.
Uses `Math.sin`, so modelled over `ℝ`. -/
noncomputable def outElastic (t : ℝ) : ℝ :=
  (2 : ℝ) ^ (-10 * t) * Real.sin (((t - 0.3 / 4) * (2 * Real.pi)) / 0.3) + 1

/-- Source: `const s = 1.70158; --t * t * ((s + 1) * t + s) + 1`. -/
def outBack (t : ℚ) : ℚ :=
  (t - 1) * (t - 1) * ((1.70158 + 1) * (t - 1) + 1.70158) + 1

def smoothStep (t : ℚ) : ℚ := t * t * (3 - 2 * t)

def snap (t : ℚ) : ℚ :=
  if t < 0.5 then 0.5 * (2 * t) ^ 2 else 0.5 * (2 - (2 * (1 - t)) ^ 2)

end ease

/-! ## Circular step animator (`useStepAnimation`) -/

/-- The shortest-path delta computed at the start of a `useStepAnimation`
episode: `let delta = target - current; if (Math.abs(delta) > total / 2)
delta = delta > 0 ? delta - total : delta + total`. -/
def shortestDelta (current target total : ℚ) : ℚ :=
  let delta := target - current
  if |delta| > total / 2 then (if delta > 0 then delta - total else delta + total)
  else delta

/-- Result of the two normalization loops
`while (newValue < 0) newValue += total; while (newValue >= total) newValue -= total`:
for `total > 0` they terminate with `v` shifted by the unique integer multiple
of `total` landing in `[0, total)`, namely `v - total * ⌊v / total⌋`. -/
def wrapToRange (v total : ℚ) : ℚ := v - total * ⌊v / total⌋

/-- One `animate` callback of `useStepAnimation` at a given `elapsed` time:
`progress = min(elapsed / duration, 1)`, `eased = ease[easeFn](progress)`,
`newValue = start + (end - start) * eased` wrapped into `[0, total)`;
once `progress ≥ 1` the final `setCurrent(target)` runs instead (the raw
target, with no wrap). -/
def stepAnimFrame (startValue endValue target total duration elapsed : ℚ)
    (easeFn : ℚ → ℚ) : ℚ :=
  let progress := min (elapsed / duration) 1
  let eased := easeFn progress
  let newValue := startValue + (endValue - startValue) * eased
  if progress < 1 then wrapToRange newValue total else target

/-- The displayed position produced by one `useStepAnimation` effect run,
started at state `current` with the given `target`, observed `elapsed`
milliseconds in.  Mirrors the effect body: if `|current - target| < 0.001`
it snaps straight to `target`; otherwise it animates from `current` to
`current + shortestDelta` and wraps each frame. -/
def stepAnimValue (current target total duration : ℚ) (easeFn : ℚ → ℚ)
    (elapsed : ℚ) : ℚ :=
  if |current - target| < 0.001 then target
  else stepAnimFrame current (current + shortestDelta current target total)
    target total duration elapsed easeFn

/-! ## Ring navigation controller (`useRingNav`) -/

/-- The `move(delta)` state update of `useRingNav`:
`let next = current + delta; if (wrap) next = ((next % itemCount) + itemCount) % itemCount;
else next = Math.max(0, Math.min(itemCount - 1, next))`. -/
def move (itemCount : ℤ) (wrap : Bool) (current delta : ℤ) : ℤ :=
  let next := current + delta
  if wrap then ((next.tmod itemCount) + itemCount).tmod itemCount
  else max 0 (min (itemCount - 1) next)

/-! ## Visible window builder (`Ring.tsx`, `visibleSlots` memo) -/

/-- One rendered slot (the `item` field is `items[sourceIndex]`; we carry the
index). `depth = Math.abs(i)`, `offset = i`. -/
structure Slot where
  sourceIndex : ℤ
  depth : ℕ
  offset : ℤ
deriving DecidableEq, Repr

/-- Body of the `visibleSlots` loop of `Ring.tsx` at iteration `k` (the loop
variable is `i = k - halfVisible`, running from `-halfVisible` to
`+halfVisible`): `depth = Math.abs(i)`;
`itemIndex = Math.round(animatedPosition) + i`, wrapped by
`((itemIndex % items.length) + items.length) % items.length`. -/
def slotAt (itemCount : ℤ) (animatedPosition : ℚ) (halfVisible : ℤ)
    (k : ℕ) : Slot :=
  let i : ℤ := (k : ℤ) - halfVisible
  { sourceIndex := jsWrapIndex (jsRound animatedPosition + i) itemCount
    depth := i.natAbs
    offset := i }

/-- The `visibleSlots` memo of `Ring.tsx`: the loop
`for (let i = -halfVisible; i <= halfVisible; i++)` with
`halfVisible = Math.floor(visibleItems / 2)`, producing `2*halfVisible + 1`
slots. -/
def visibleSlots (itemCount : ℤ) (animatedPosition : ℚ) (visibleItems : ℕ) :
    List Slot :=
  (List.range (visibleItems / 2 * 2 + 1)).map
    (slotAt itemCount animatedPosition (visibleItems / 2 : ℕ))

/-- The `selectedItem` lookup of `Ring.tsx`, line 157:
`items[Math.round(animatedPosition) % items.length]` — a single JavaScript
`%` (truncated remainder), with no `+ items.length` correction. -/
def selectedItemIndex (animatedPosition : ℚ) (itemCount : ℤ) : ℤ :=
  (jsRound animatedPosition).tmod itemCount

/-! ## Input dispatcher (`useRingInput`)

The hook's per-instance refs and timers, as an explicit state machine.
Times are wall-clock milliseconds (`Date.now()`), as `ℕ`.  A `setTimeout`
handle is modelled by the absolute deadline at which its callback runs;
`clearTimeout` is modelled by dropping the deadline.  A run is a list of
events — key presses, timer callbacks, unmount — processed in wall-clock
order on the single JS event queue; `validEv` captures that a due timer's
callback runs before any later event, and that nothing runs after unmount. -/

/-- `TIMING` constants from `themes/tokens.ts`. -/
def DOUBLE_PRESS_WINDOW : ℕ := 250

def LONG_PRESS_THRESHOLD : ℕ := 400

/-- The semantic actions of `useRingInput` (`type InputAction = ...`). -/
inductive InputAction where
  | up | down | left | right
  | press | doublePress | longPress
  | escape | tab
deriving DecidableEq, Repr

/-- The dispatcher's per-instance state: the `useState` fields
(`isLongPressing`, `pressCount`), the refs (`pressStartRef`, `lastPressRef`,
`longPressTimerRef`, `doublePressTimerRef`, `pendingPressRef`), plus the
observables of this model: the log of actions passed to `dispatch` (each of
which invokes at most one handler callback), the unmount flag, and the
current wall-clock time of the last processed event. -/
structure DispState where
  isLongPressing : Bool
  pressCount : ℕ
  pressStart : Option ℕ
  lastPress : ℕ
  longTimer : Option ℕ
  doubleTimer : Option ℕ
  pendingPress : Bool
  dispatched : List InputAction
  disposed : Bool
  now : ℕ
deriving DecidableEq, Repr

/-- Initial state at mount: `lastPressRef = 0`, no timers, nothing pending. -/
def initState : DispState :=
  { isLongPressing := false, pressCount := 0, pressStart := none
    lastPress := 0, longTimer := none, doubleTimer := none
    pendingPress := false, dispatched := [], disposed := false, now := 0 }

/-- `dispatch(action)`: records `lastAction` and invokes the matching handler;
modelled by appending to the log. -/
def dispatch (s : DispState) (a : InputAction) : DispState :=
  { s with dispatched := s.dispatched ++ [a] }

/-- `clearTimers`: `clearTimeout` on both timers and null the refs. -/
def clearTimers (s : DispState) : DispState :=
  { s with longTimer := none, doubleTimer := none }

/-- The `key.return || input === " "` branch of the `useInput` callback,
with `now = Date.now()`:

1. `pressStartRef.current = now`; clear any existing long-press timer and
   arm a new one for `now + LONG_PRESS_THRESHOLD`;
2. if `now - lastPressRef.current < DOUBLE_PRESS_WINDOW && pendingPressRef.current`:
   `clearTimers()`, clear pending, `dispatch("doublePress")`, bump `pressCount`;
3. else mark pending and (re)arm the double-press timer for
   `now + DOUBLE_PRESS_WINDOW`;
4. `lastPressRef.current = now`. -/
def handlePress (s : DispState) (now : ℕ) : DispState :=
  let s1 := { s with pressStart := some now
                     longTimer := some (now + LONG_PRESS_THRESHOLD) }
  let s2 :=
    if now - s1.lastPress < DOUBLE_PRESS_WINDOW ∧ s1.pendingPress then
      let sa := clearTimers s1
      let sb := dispatch { sa with pendingPress := false } .doublePress
      { sb with pressCount := sb.pressCount + 1 }
    else
      { s1 with pendingPress := true
                doubleTimer := some (now + DOUBLE_PRESS_WINDOW) }
  { s2 with lastPress := now }

/-- Body of the long-press `setTimeout` callback: set `isLongPressing`,
`dispatch("longPress")`, null `pressStartRef`, clear pending.  The timer has
fired, so its deadline is consumed. -/
def fireLongPress (s : DispState) : DispState :=
  let s1 := dispatch { s with isLongPressing := true } .longPress
  { s1 with pressStart := none, pendingPress := false, longTimer := none }

/-- Body of the double-press `setTimeout` callback: if a press is still
pending and `pressStartRef` is set, cancel the long-press timer,
`dispatch("press")` and bump `pressCount`; either way clear pending.  The
timer has fired, so its deadline is consumed. -/
def fireDoublePress (s : DispState) : DispState :=
  let s1 :=
    if s.pendingPress ∧ s.pressStart ≠ none then
      let sa := dispatch { s with longTimer := none } .press
      { sa with pressCount := sa.pressCount + 1 }
    else s
  { s1 with pendingPress := false, doubleTimer := none }

/-- Events entering the dispatcher's single-threaded queue, tagged with the
wall-clock time at which they run. -/
inductive Ev where
  | press (t : ℕ)
  | longFire (t : ℕ)
  | doubleFire (t : ℕ)
  | dispose (t : ℕ)
deriving DecidableEq, Repr

/-- Effect of one event on the state. `dispose` is the unmount cleanup
(`useEffect` teardown): `clearTimers()` and stop listening. -/
def step (s : DispState) (e : Ev) : DispState :=
  match e with
  | .press t => { handlePress s t with now := t }
  | .longFire t => { fireLongPress s with now := t }
  | .doubleFire t => { fireDoublePress s with now := t }
  | .dispose t => { clearTimers s with disposed := true, now := t }

/-- Scheduling validity of one event: nothing runs after unmount; time is
monotone; a timer callback runs exactly at its pending deadline; an event at
time `t` cannot jump past a timer whose deadline has already passed (the
callback runs first). -/
def validEv (s : DispState) (e : Ev) : Bool :=
  !s.disposed &&
  match e with
  | .press t => s.now ≤ t
      && (match s.longTimer with | some d => t < d | none => true)
      && (match s.doubleTimer with | some d => t < d | none => true)
  | .longFire t => s.now ≤ t && s.longTimer == some t
      && (match s.doubleTimer with | some d => t ≤ d | none => true)
  | .doubleFire t => s.now ≤ t && s.doubleTimer == some t
      && (match s.longTimer with | some d => t ≤ d | none => true)
  | .dispose t => s.now ≤ t
      && (match s.longTimer with | some d => t ≤ d | none => true)
      && (match s.doubleTimer with | some d => t ≤ d | none => true)

/-- Run a list of events. -/
def run (s : DispState) (es : List Ev) : DispState := es.foldl step s

/-- A whole event list is validly scheduled. -/
def validRun (s : DispState) : List Ev → Bool
  | [] => true
  | e :: es => validEv s e && validRun (step s e) es

/-! ## Key classification (`useInput` callback of `useRingInput`) -/

/-- The normalized key-flag record Ink passes to `useInput`.
(`key.return` is named `returnKey` here; `return` is reserved in Lean.) -/
structure Key where
  upArrow : Bool
  downArrow : Bool
  leftArrow : Bool
  rightArrow : Bool
  tab : Bool
  escape : Bool
  returnKey : Bool
deriving DecidableEq, Repr

/-- What the `useInput` callback does with one key event. -/
inductive KeyOutcome where
  /-- `dispatch(a)` is called immediately. -/
  | acted (a : InputAction)
  /-- `exit()` — Ink app teardown (no `onEscape` handler registered). -/
  | exitApp
  /-- The Enter/Space press-classification path runs (`handlePress`). -/
  | pressHandling
  /-- No branch matched; the event is ignored. -/
  | ignored
deriving DecidableEq, Repr

/-- The if/else chain of the `useInput` callback, in source order:
arrows/hjkl, Tab, then `key.escape || input === "q"` (dispatching `escape`
when an `onEscape` handler exists, else `exit()`), then
`key.return || input === " "`. -/
def handleKey (key : Key) (input : String) (hasEscapeHandler : Bool) :
    KeyOutcome :=
  if key.upArrow || input == "k" then .acted .up
  else if key.downArrow || input == "j" then .acted .down
  else if key.leftArrow || input == "h" then .acted .left
  else if key.rightArrow || input == "l" then .acted .right
  else if key.tab then .acted .tab
  else if key.escape || input == "q" then
    (if hasEscapeHandler then .acted .escape else .exitApp)
  else if key.returnKey || input == " " then .pressHandling
  else .ignored

/-- A key record with every flag off (a plain printable-character event). -/
def plainKey : Key :=
  { upArrow := false, downArrow := false, leftArrow := false
    rightArrow := false, tab := false, escape := false, returnKey := false }

/-! ## Helper lemmas: JavaScript remainder vs mathematical mod -/

theorem neg_tmod (a b : ℤ) : (-a).tmod b = -(a.tmod b) := by
  rw [Int.tmod_def, Int.tmod_def, Int.neg_tdiv]
  ring

theorem tmod_gt_neg (i N : ℤ) (h : 0 < N) : -N < i.tmod N := by
  have h2 : (-i).tmod N < N := Int.tmod_lt_of_pos _ h
  rw [neg_tmod] at h2
  omega

theorem tmod_emod (i N : ℤ) : (i.tmod N) % N = i % N := by
  have h : i.tmod N = i + N * (-(i.tdiv N)) := by rw [Int.tmod_def]; ring
  rw [h, Int.add_mul_emod_self_left]

/-- The double-mod idiom computes the mathematical (Euclidean) remainder. -/
theorem jsWrapIndex_eq_emod (i N : ℤ) (h : 0 < N) : jsWrapIndex i N = i % N := by
  unfold jsWrapIndex
  have hlo := tmod_gt_neg i N h
  have hnn : 0 ≤ i.tmod N + N := by omega
  rw [Int.tmod_eq_emod hnn h.le]
  have h1 : (i.tmod N + N) % N = (i.tmod N) % N := by
    have h2 := Int.add_mul_emod_self_left (i.tmod N) N 1
    rw [mul_one] at h2
    exact h2
  rw [h1, tmod_emod]

theorem jsWrapIndex_range (i N : ℤ) (h : 0 < N) :
    0 ≤ jsWrapIndex i N ∧ jsWrapIndex i N < N := by
  rw [jsWrapIndex_eq_emod i N h]
  exact ⟨Int.emod_nonneg i h.ne', Int.emod_lt_of_pos i h⟩

/-! ## C2: shortest-path travel delta -/

/-- **C2.** For every `total > 0` and `current, target ∈ [0, total)`, the
Circular Step Animator's travel delta — `target - current`, replaced by
`delta ∓ total` when `|delta| > total/2` — satisfies `|delta| ≤ total/2`:
the animation always takes the shorter arc around the ring. -/
theorem shortestDelta_le_half (current target total : ℚ)
    (_htot : 0 < total)
    (hc0 : 0 ≤ current) (hc1 : current < total)
    (ht0 : 0 ≤ target) (ht1 : target < total) :
    |shortestDelta current target total| ≤ total / 2 := by
  unfold shortestDelta
  dsimp only
  split_ifs with h1 h2
  · rw [abs_le]
    have hd : target - current > total / 2 := by
      rcases abs_cases (target - current) with ⟨he, _⟩ | ⟨he, hneg⟩
      · rw [he] at h1; exact h1
      · linarith
    constructor <;> linarith
  · rw [abs_le]
    have hd : target - current < -(total / 2) := by
      push_neg at h2
      rcases abs_cases (target - current) with ⟨he, hpos⟩ | ⟨he, _⟩
      · rw [he] at h1; linarith
      · rw [he] at h1; linarith
    constructor <;> linarith
  · push_neg at h1
    exact h1

/-- Witness for C2 at `current = 4`, `target = 0`, `total = 5`: the computed
delta is `+1` (wrap forward), within `total/2`. -/
theorem shortestDelta_le_half_witness :
    (0:ℚ) < 5 ∧ |shortestDelta 4 0 5| ≤ 5 / 2 :=
  ⟨by norm_num,
   shortestDelta_le_half 4 0 5 (by norm_num) (by norm_num) (by norm_num)
     (by norm_num) (by norm_num)⟩

/-! ## C5: ring navigation controller `move(delta)` -/

/-- **C5.** For every `count > 0`, index in `[0, count)` and integer `delta`:
with wrap enabled, `move` computes `((index + delta) % count + count) % count`,
which equals the Euclidean remainder `(index + delta) mod count` and lies in
`[0, count)`; with wrap disabled it clamps to `max(0, min(count-1, index+delta))`.
In particular `move(-1)` at index 0 over `count = 5` yields 4 wrapped and
0 clamped. -/
theorem move_spec (count index delta : ℤ)
    (hcount : 0 < count) (_h0 : 0 ≤ index) (_h1 : index < count) :
    move count true index delta = (index + delta) % count ∧
    (0 ≤ move count true index delta ∧ move count true index delta < count) ∧
    move count false index delta = max 0 (min (count - 1) (index + delta)) ∧
    move 5 true 0 (-1) = 4 ∧ move 5 false 0 (-1) = 0 := by
  refine ⟨?_, ?_, rfl, by decide, by decide⟩
  · show jsWrapIndex (index + delta) count = _
    exact jsWrapIndex_eq_emod _ _ hcount
  · show 0 ≤ jsWrapIndex (index + delta) count ∧ _
    exact jsWrapIndex_range _ _ hcount

/-- Witness for C5 at `count = 5`, `index = 0`, `delta = -1`. -/
theorem move_spec_witness :
    (0:ℤ) < 5 ∧ move 5 true 0 (-1) = (0 + -1) % 5 ∧ move 5 false 0 (-1) = 0 :=
  ⟨by norm_num,
   (move_spec 5 0 (-1) (by norm_num) le_rfl (by norm_num)).1,
   (move_spec 5 0 (-1) (by norm_num) le_rfl (by norm_num)).2.2.2.2⟩

/-! ## C4: the displayed position stays in `[0, total)` -/

theorem wrapToRange_mem (v total : ℚ) (h : 0 < total) :
    0 ≤ wrapToRange v total ∧ wrapToRange v total < total := by
  unfold wrapToRange
  constructor
  · have hf : (⌊v / total⌋ : ℚ) ≤ v / total := Int.floor_le _
    have := mul_le_mul_of_nonneg_left hf h.le
    rw [mul_div_cancel₀ _ h.ne'] at this
    linarith
  · have hf : v / total < ⌊v / total⌋ + 1 := Int.lt_floor_add_one _
    have := mul_lt_mul_of_pos_left hf h
    rw [mul_div_cancel₀ _ h.ne'] at this
    linarith

/-- **C4, counterexample.** The claim fails as stated ("for every target
supplied"): `useStepAnimation`'s state is initialised to the raw `target`
and the settle path runs `setCurrent(target)` with no normalization, so a
target outside `[0, total)` is returned as-is.  With `total = 5` and
`target = 5`, the effect's `|current - target| < 0.001` branch returns `5`,
which is not `< total`. -/
theorem stepAnim_out_of_range :
    stepAnimValue 5 5 5 150 ease.smoothStep 0 = 5 ∧
    ¬ stepAnimValue 5 5 5 150 ease.smoothStep 0 < 5 := by
  constructor
  · rw [stepAnimValue, if_pos (by norm_num)]
  · rw [stepAnimValue, if_pos (by norm_num)]
    norm_num

/-- **C4, amended.** For every `total > 0` and every `target ∈ [0, total)`
(which is what `useRingNav` supplies), starting from any displayed position
`current ∈ [0, total)`, the value returned by the Circular Step Animator is
in `[0, total)` at every elapsed time — mid-animation values are wrapped by
the normalization loops and the settle value is the in-range `target`
itself — for any easing function and any duration. -/
theorem stepAnim_in_range (current target total duration elapsed : ℚ)
    (easeFn : ℚ → ℚ)
    (htot : 0 < total)
    (_hc0 : 0 ≤ current) (_hc1 : current < total)
    (ht0 : 0 ≤ target) (ht1 : target < total) :
    0 ≤ stepAnimValue current target total duration easeFn elapsed ∧
    stepAnimValue current target total duration easeFn elapsed < total := by
  unfold stepAnimValue stepAnimFrame
  dsimp only
  split_ifs with h1 h2
  · exact ⟨ht0, ht1⟩
  · exact wrapToRange_mem _ _ htot
  · exact ⟨ht0, ht1⟩

/-- Witness for C4 (amended) mid-animation: `current = 4`, `target = 0`,
`total = 5`, half way through a 150ms smooth-step animation. -/
theorem stepAnim_in_range_witness :
    (0:ℚ) < 5 ∧
    (0 ≤ stepAnimValue 4 0 5 150 ease.smoothStep 75 ∧
      stepAnimValue 4 0 5 150 ease.smoothStep 75 < 5) :=
  ⟨by norm_num,
   stepAnim_in_range 4 0 5 150 75 ease.smoothStep (by norm_num) (by norm_num)
     (by norm_num) (by norm_num) (by norm_num)⟩

/-! ## C8: out-of-range controlled selection -/

/-- **C8.** `Ring` does not defensively wrap a controlled `selectedIndex`:
the raw value flows into `useStepAnimation` (whose initial/settled state is
the raw target) and into the `selectedItem` lookup
`items[Math.round(animatedPosition) % items.length]`, whose single truncated
`%` is negative for negative positions.  With 5 items and a controlled
index of `-1`: the animated position is `-1`, the selected-item lookup
indexes `items[-1]` (`undefined` in JavaScript) — while the `visibleSlots`
of the same frame, which use the double-mod idiom, do stay in `[0, 5)`. -/
theorem selectedItem_out_of_range :
    stepAnimValue (-1) (-1) 5 150 ease.smoothStep 0 = -1 ∧
    selectedItemIndex (-1) 5 = -1 ∧
    ¬ (0 ≤ selectedItemIndex (-1) 5 ∧ selectedItemIndex (-1) 5 < 5) ∧
    (∀ s ∈ visibleSlots 5 (-1) 5, 0 ≤ s.sourceIndex ∧ s.sourceIndex < 5) := by
  have hr : jsRound (-1) = -1 := by norm_num [jsRound]
  have h2 : selectedItemIndex (-1) 5 = -1 := by
    rw [selectedItemIndex, hr]
    decide
  refine ⟨?_, h2, by rw [h2]; decide, ?_⟩
  · rw [stepAnimValue, if_pos (by norm_num)]
  · rw [visibleSlots, show List.range (5 / 2 * 2 + 1) = [0, 1, 2, 3, 4] from rfl]
    simp only [List.map_cons, List.map_nil, slotAt, hr]
    decide

/-! ## C3: the visible window builder -/

/-- **C3.** For every `itemCount ≥ windowSize` with odd `windowSize` and
every animated position: the builder returns exactly `windowSize` slots;
exactly one slot has `depth = 0`; every `sourceIndex` is in
`[0, itemCount)`; the slot at offset `o` carries
`sourceIndex = (round(animatedPosition) + o) mod itemCount` (Euclidean mod,
equal to the source's `((raw % N) + N) % N`) and `depth = |o|`.  With
`itemCount = 5`, `windowSize = 5`, `animatedPosition = 0`, the offsets
`-2..2` map to source indices `3, 4, 0, 1, 2`. -/
theorem visibleSlots_spec (N : ℤ) (ap : ℚ) (w : ℕ)
    (hodd : Odd w) (hwN : (w : ℤ) ≤ N) :
    (visibleSlots N ap w).length = w ∧
    (visibleSlots N ap w).countP (fun s => s.depth == 0) = 1 ∧
    (∀ s ∈ visibleSlots N ap w,
      (0 ≤ s.sourceIndex ∧ s.sourceIndex < N) ∧
      s.sourceIndex = (jsRound ap + s.offset) % N ∧
      s.depth = s.offset.natAbs) ∧
    visibleSlots 5 0 5 =
      [⟨3, 2, -2⟩, ⟨4, 1, -1⟩, ⟨0, 0, 0⟩, ⟨1, 1, 1⟩, ⟨2, 2, 2⟩] := by
  obtain ⟨m, rfl⟩ := hodd
  have hw2 : (2 * m + 1) / 2 = m := by omega
  have hN : (0 : ℤ) < N := by
    have : ((2 * m + 1 : ℕ) : ℤ) = 2 * (m : ℤ) + 1 := by push_cast; ring
    omega
  refine ⟨?_, ?_, ?_, ?_⟩
  · rw [visibleSlots, List.length_map, List.length_range, hw2]
    omega
  · rw [visibleSlots, hw2, List.countP_map]
    have hc : List.countP ((fun s : Slot => s.depth == 0) ∘ slotAt N ap (m : ℕ))
        (List.range (m * 2 + 1)) =
        List.countP (fun k => k == m) (List.range (m * 2 + 1)) := by
      refine List.countP_congr fun k _ => ?_
      simp only [Function.comp_apply, slotAt, beq_iff_eq]
      omega
    rw [hc, ← List.count_eq_countP,
      List.count_eq_one_of_mem (List.nodup_range _) (by simp; omega)]
  · intro s hs
    rw [visibleSlots, hw2] at hs
    simp only [List.mem_map, List.mem_range] at hs
    obtain ⟨k, _, rfl⟩ := hs
    exact ⟨jsWrapIndex_range _ _ hN, jsWrapIndex_eq_emod _ _ hN, rfl⟩
  · rw [visibleSlots, show List.range (5 / 2 * 2 + 1) = [0, 1, 2, 3, 4] from rfl]
    simp only [List.map_cons, List.map_nil, slotAt,
      show jsRound 0 = 0 by norm_num [jsRound]]
    decide

/-- Witness for C3 at `itemCount = 5`, `windowSize = 5`,
`animatedPosition = 0`. -/
theorem visibleSlots_spec_witness :
    Odd 5 ∧ (visibleSlots 5 0 5).length = 5 :=
  ⟨⟨2, by norm_num⟩,
   (visibleSlots_spec 5 0 5 ⟨2, by norm_num⟩ (by norm_num)).1⟩

/-! ## C7: easing endpoint contract -/

theorem outElastic_zero : ease.outElastic 0 = 0 := by
  unfold ease.outElastic
  have harg : (((0 : ℝ) - 0.3 / 4) * (2 * Real.pi)) / 0.3 = -(Real.pi / 2) := by
    norm_num
    ring
  rw [harg, Real.sin_neg, Real.sin_pi_div_two]
  norm_num

/-- The exact value of the elastic-out easing at `t = 1`:
`2^(-10) * sin(37π/6) + 1 = (1/1024) * (1/2) + 1`. -/
theorem outElastic_one : ease.outElastic 1 = 1 + 1 / 2048 := by
  unfold ease.outElastic
  have harg : (((1 : ℝ) - 0.3 / 4) * (2 * Real.pi)) / 0.3 =
      Real.pi / 6 + 2 * Real.pi + 2 * Real.pi + 2 * Real.pi := by
    norm_num
    ring
  have hsin : Real.sin ((((1 : ℝ) - 0.3 / 4) * (2 * Real.pi)) / 0.3) = 1 / 2 := by
    rw [harg, Real.sin_add_two_pi, Real.sin_add_two_pi, Real.sin_add_two_pi,
      Real.sin_pi_div_six]
  rw [hsin]
  have hpow : (2 : ℝ) ^ (-10 * (1 : ℝ)) = 1 / 1024 := by
    rw [show (-10 * (1 : ℝ)) = ((-10 : ℤ) : ℝ) by norm_num, Real.rpow_intCast]
    norm_num
  rw [hpow]
  norm_num

/-- **C7, counterexample.** The elastic-out easing does *not* satisfy
`f(1) = 1`: its argument to `sin` at `t = 1` is `37π/6` (≡ `π/6`), not a
multiple of `π`, so `outElastic(1) = 1 + 2⁻¹⁰·(1/2) = 1 + 1/2048`. -/
theorem outElastic_one_ne_one : ease.outElastic 1 ≠ 1 := by
  rw [outElastic_one]
  norm_num

/-- **C7, amended.** Every easing variant satisfies `f(0) = 0` and
`f(1) = 1` — including back-out, which hits `f(1) = 1` exactly — *except*
elastic-out, which satisfies `f(0) = 0` but overshoots at the endpoint:
`f(1) = 1 + 1/2048`. -/
theorem easing_endpoints :
    ease.linear 0 = 0 ∧ ease.linear 1 = 1 ∧
    ease.inQuad 0 = 0 ∧ ease.inQuad 1 = 1 ∧
    ease.outQuad 0 = 0 ∧ ease.outQuad 1 = 1 ∧
    ease.inOutQuad 0 = 0 ∧ ease.inOutQuad 1 = 1 ∧
    ease.inCubic 0 = 0 ∧ ease.inCubic 1 = 1 ∧
    ease.outCubic 0 = 0 ∧ ease.outCubic 1 = 1 ∧
    ease.inOutCubic 0 = 0 ∧ ease.inOutCubic 1 = 1 ∧
    ease.outBack 0 = 0 ∧ ease.outBack 1 = 1 ∧
    ease.smoothStep 0 = 0 ∧ ease.smoothStep 1 = 1 ∧
    ease.snap 0 = 0 ∧ ease.snap 1 = 1 ∧
    ease.outElastic 0 = 0 ∧ ease.outElastic 1 = 1 + 1 / 2048 := by
  refine ⟨rfl, rfl, ?_, ?_, ?_, ?_, ?_, ?_, ?_, ?_, ?_, ?_, ?_, ?_, ?_, ?_,
    ?_, ?_, ?_, ?_, outElastic_zero, outElastic_one⟩ <;>
    norm_num [ease.inQuad, ease.outQuad, ease.inOutQuad, ease.inCubic,
      ease.outCubic, ease.inOutCubic, ease.outBack, ease.smoothStep, ease.snap]

/-! ## C1: long-press is unreachable

Whenever the long-press timer is armed, the double-press timer is armed
with a strictly earlier deadline, a press is pending, and `pressStartRef`
is set — which is exactly the condition under which the double-press
callback cancels the long-press timer.  Consequently the long-press timer
can never fire in any validly scheduled run. -/

/-- Invariant tying the long-press timer to the double-press timer. -/
def TimerInv (s : DispState) : Prop :=
  ∀ tL, s.longTimer = some tL →
    ∃ tD, s.doubleTimer = some tD ∧ tD < tL ∧
      s.pendingPress = true ∧ s.pressStart ≠ none

theorem timerInv_init : TimerInv initState := by
  intro tL h
  simp [initState] at h

theorem timerInv_step (s : DispState) (e : Ev)
    (hv : validEv s e = true) (hinv : TimerInv s) : TimerInv (step s e) := by
  rcases e with t | t | t | t
  · -- press: either both timers are cleared (double-press branch), or the
    -- fresh deadlines satisfy now+250 < now+400 with a pending press
    simp only [step, handlePress, clearTimers, dispatch]
    split_ifs with hg
    · intro tL h
      simp at h
    · intro tL h
      simp only at h
      refine ⟨t + DOUBLE_PRESS_WINDOW, rfl, ?_, rfl, by simp⟩
      rw [← Option.some_inj.mp h]
      simp [DOUBLE_PRESS_WINDOW, LONG_PRESS_THRESHOLD]
  · -- longFire: impossible — the invariant puts the double-press deadline
    -- strictly before the long-press one, but validity requires the converse
    exfalso
    cases hlt : s.longTimer with
    | none => simp [validEv, hlt] at hv
    | some tL =>
      obtain ⟨tD, hdt, hlt2, _, _⟩ := hinv tL hlt
      simp [validEv, hlt, hdt] at hv
      omega
  · -- doubleFire: the guard holds whenever the long timer is armed, and the
    -- then-branch cancels the long timer
    cases hlt : s.longTimer with
    | none =>
      simp only [step, fireDoublePress]
      split_ifs with hg <;> intro tL h <;> simp [dispatch, hlt] at h
    | some tL0 =>
      obtain ⟨tD, hdt, hlt2, hp, hps⟩ := hinv tL0 hlt
      simp only [step, fireDoublePress]
      rw [if_pos ⟨by rw [hp], hps⟩]
      intro tL h
      simp [dispatch] at h
  · -- dispose: both timers cleared
    intro tL h
    simp [step, clearTimers] at h

/-- Under the invariant, a long-press timer callback can never be validly
scheduled: the double-press deadline is strictly earlier. -/
theorem validEv_longFire_false (s : DispState) (t : ℕ) (hinv : TimerInv s) :
    ¬ validEv s (Ev.longFire t) = true := by
  intro hv
  cases hlt : s.longTimer with
  | none => simp [validEv, hlt] at hv
  | some tL =>
    obtain ⟨tD, hdt, hlt2, _, _⟩ := hinv tL hlt
    simp [validEv, hlt, hdt] at hv
    omega

/-- Each valid step appends nothing, `press`, or `doublePress` to the
dispatch log — never `longPress`. -/
theorem step_dispatched (s : DispState) (e : Ev) (hv : validEv s e = true)
    (hinv : TimerInv s) :
    (step s e).dispatched = s.dispatched ∨
    (step s e).dispatched = s.dispatched ++ [InputAction.doublePress] ∨
    (step s e).dispatched = s.dispatched ++ [InputAction.press] := by
  rcases e with t | t | t | t
  · simp only [step, handlePress, clearTimers, dispatch]
    split_ifs with hg
    · right; left; rfl
    · left; rfl
  · exact absurd hv (validEv_longFire_false s t hinv)
  · simp only [step, fireDoublePress]
    split_ifs with hg
    · right; right; rfl
    · left; rfl
  · left; rfl

theorem longPress_not_in_run (es : List Ev) :
    ∀ s, validRun s es = true → TimerInv s →
      InputAction.longPress ∉ s.dispatched →
      InputAction.longPress ∉ (run s es).dispatched := by
  induction es with
  | nil => intro s _ _ h; exact h
  | cons e es ih =>
    intro s hv hinv hnl
    simp only [validRun, Bool.and_eq_true] at hv
    simp only [run, List.foldl_cons]
    refine ih (step s e) hv.2 (timerInv_step s e hv.1 hinv) ?_
    rcases step_dispatched s e hv.1 hinv with h | h | h <;> rw [h] <;>
      simp [hnl]

/-- **C1.** The claim fails on the code: `longPress` is *never* dispatched,
for any validly scheduled sequence of presses and timer callbacks.  On every
press the double-press timer (250ms) is armed alongside the long-press timer
(400ms); when the double-press timer fires first its callback cancels the
long-press timer and dispatches `press`.  Concretely, a single press at
`t = 0` held forever yields exactly `[press]` at `t = 250`, with the
long-press timer cancelled — not the claimed `longPress`. -/
theorem longPress_unreachable (es : List Ev)
    (hv : validRun initState es = true) :
    InputAction.longPress ∉ (run initState es).dispatched ∧
    validRun initState [Ev.press 0, Ev.doubleFire 250] = true ∧
    (run initState [Ev.press 0, Ev.doubleFire 250]).dispatched =
      [InputAction.press] ∧
    (run initState [Ev.press 0, Ev.doubleFire 250]).longTimer = none := by
  refine ⟨longPress_not_in_run es initState hv timerInv_init ?_, ?_, ?_, ?_⟩
  · simp [initState]
  · decide
  · decide
  · decide

/-- Witness for C1: the held-press trace itself. -/
theorem longPress_unreachable_witness :
    validRun initState [Ev.press 0, Ev.doubleFire 250] = true ∧
    InputAction.longPress ∉
      (run initState [Ev.press 0, Ev.doubleFire 250]).dispatched :=
  ⟨by decide,
   (longPress_unreachable [Ev.press 0, Ev.doubleFire 250] (by decide)).1⟩

/-! ## C6: double press -/

/-- The state after a first press at time `t1` from the initial state:
press pending, both timers armed, nothing dispatched (the first press's
double-press guard fails because `pendingPressRef` is still false). -/
theorem firstPress_state (t1 : ℕ) :
    step initState (Ev.press t1) =
      { isLongPressing := false, pressCount := 0, pressStart := some t1
        lastPress := t1, longTimer := some (t1 + LONG_PRESS_THRESHOLD)
        doubleTimer := some (t1 + DOUBLE_PRESS_WINDOW), pendingPress := true
        dispatched := [], disposed := false, now := t1 } := by
  simp only [step, handlePress, initState, clearTimers, dispatch]
  rw [if_neg (by simp)]

/-- **C6.** Two presses of the activate button strictly less than
`DOUBLE_PRESS_WINDOW = 250`ms apart (the first one still pending) are a
validly scheduled trace that dispatches exactly one `doublePress` and no
`press`; afterwards both timers are cancelled and the pending flag is
cleared, so nothing further can resolve from that pair. -/
theorem doublePress_spec (t1 t2 : ℕ) (h12 : t1 ≤ t2)
    (hwin : t2 < t1 + DOUBLE_PRESS_WINDOW) :
    validRun initState [Ev.press t1, Ev.press t2] = true ∧
    (run initState [Ev.press t1, Ev.press t2]).dispatched =
      [InputAction.doublePress] ∧
    (run initState [Ev.press t1, Ev.press t2]).longTimer = none ∧
    (run initState [Ev.press t1, Ev.press t2]).doubleTimer = none ∧
    (run initState [Ev.press t1, Ev.press t2]).pendingPress = false := by
  have hD : DOUBLE_PRESS_WINDOW = 250 := rfl
  have hL : LONG_PRESS_THRESHOLD = 400 := rfl
  have hw : t2 - t1 < DOUBLE_PRESS_WINDOW := by omega
  have h2 : step (step initState (Ev.press t1)) (Ev.press t2) =
      { isLongPressing := false, pressCount := 1, pressStart := some t2
        lastPress := t2, longTimer := none, doubleTimer := none
        pendingPress := false, dispatched := [InputAction.doublePress]
        disposed := false, now := t2 } := by
    rw [firstPress_state]
    simp only [step, handlePress, clearTimers, dispatch]
    split_ifs with hg
    · simp
    · exact absurd ⟨hw, trivial⟩ hg
  have hv1 : validEv initState (Ev.press t1) = true := by
    simp [validEv, initState]
  have hv2 : validEv (step initState (Ev.press t1)) (Ev.press t2) = true := by
    rw [firstPress_state]
    simp only [validEv, Bool.and_eq_true, Bool.not_eq_true',
      decide_eq_true_eq]
    exact ⟨trivial, ⟨h12, by omega⟩, by omega⟩
  have hrun : run initState [Ev.press t1, Ev.press t2] =
      step (step initState (Ev.press t1)) (Ev.press t2) := rfl
  refine ⟨?_, by rw [hrun, h2], by rw [hrun, h2], by rw [hrun, h2],
    by rw [hrun, h2]⟩
  simp [validRun, hv1, hv2]

/-- Witness for C6 at `t1 = 0`, `t2 = 100` (100ms apart). -/
theorem doublePress_spec_witness :
    (0 ≤ 100 ∧ 100 < 0 + DOUBLE_PRESS_WINDOW) ∧
    (run initState [Ev.press 0, Ev.press 100]).dispatched =
      [InputAction.doublePress] :=
  ⟨⟨by decide, by decide⟩,
   (doublePress_spec 0 100 (by decide) (by decide)).2.1⟩

/-! ## C9: disposal cancels everything -/

/-- After a `dispose` step nothing is validly schedulable, so the state
(and in particular the dispatch log) never changes again. -/
theorem disposed_run_fixed (es : List Ev) (s : DispState)
    (hd : s.disposed = true) (hv : validRun s es = true) : run s es = s := by
  cases es with
  | nil => rfl
  | cons e es =>
    exfalso
    simp only [validRun, Bool.and_eq_true] at hv
    have h1 := hv.1
    unfold validEv at h1
    rw [hd] at h1
    simp at h1

/-- **C9.** Disposing the dispatcher cancels both pending timers, and no
action is ever dispatched afterwards: from the disposed state no event is
validly schedulable, so every valid continuation leaves the state — and its
dispatch log — unchanged.  In particular a press at `t0` followed by
disposal at `t1` before the first armed deadline (`t0 + 250`; the long-press
deadline is `t0 + 400`) results in zero dispatched actions, ever. -/
theorem dispose_spec (pre : List Ev) (t : ℕ) (es : List Ev) (t0 t1 : ℕ)
    (h01 : t0 ≤ t1) (hwin : t1 < t0 + DOUBLE_PRESS_WINDOW) :
    (step (run initState pre) (Ev.dispose t)).longTimer = none ∧
    (step (run initState pre) (Ev.dispose t)).doubleTimer = none ∧
    (validRun (step (run initState pre) (Ev.dispose t)) es = true →
      run (step (run initState pre) (Ev.dispose t)) es =
        step (run initState pre) (Ev.dispose t)) ∧
    validRun initState [Ev.press t0, Ev.dispose t1] = true ∧
    (run initState [Ev.press t0, Ev.dispose t1]).dispatched = [] := by
  refine ⟨rfl, rfl, fun hv => disposed_run_fixed es _ rfl hv, ?_, ?_⟩
  · have hv1 : validEv initState (Ev.press t0) = true := by
      simp [validEv, initState]
    have hv2 : validEv (step initState (Ev.press t0)) (Ev.dispose t1) = true := by
      rw [firstPress_state]
      simp only [validEv, Bool.and_eq_true, Bool.not_eq_true',
        decide_eq_true_eq]
      have hD : DOUBLE_PRESS_WINDOW = 250 := rfl
      have hL : LONG_PRESS_THRESHOLD = 400 := rfl
      exact ⟨trivial, ⟨h01, by omega⟩, by omega⟩
    simp [validRun, hv1, hv2]
  · have : run initState [Ev.press t0, Ev.dispose t1] =
        step (step initState (Ev.press t0)) (Ev.dispose t1) := rfl
    rw [this, firstPress_state]
    rfl

/-- Witness for C9: press at 0, dispose at 100, attempted continuation. -/
theorem dispose_spec_witness :
    (0 ≤ 100 ∧ 100 < 0 + DOUBLE_PRESS_WINDOW) ∧
    (run initState [Ev.press 0, Ev.dispose 100]).dispatched = [] :=
  ⟨⟨by decide, by decide⟩,
   (dispose_spec [] 0 [Ev.press 300] 0 100 (by decide) (by decide)).2.2.2.2⟩

/-! ## C10: the q key is escape -/

/-- **C10.** A plain `q` keypress takes exactly the same branch as the
Escape key: if the caller registered an `onEscape` handler the dispatcher
dispatches `escape`, otherwise it calls Ink's `exit()`. -/
theorem q_is_escape (hasEscapeHandler : Bool) :
    handleKey plainKey "q" hasEscapeHandler =
      handleKey { plainKey with escape := true } "" hasEscapeHandler ∧
    handleKey plainKey "q" hasEscapeHandler =
      (if hasEscapeHandler then .acted .escape else .exitApp) := by
  cases hasEscapeHandler <;> exact ⟨rfl, rfl⟩

end RingWorld
